import Mathlib

/-!
Verification of the key-value parameter store of this repository.

The store implementation itself (the `mxnet.kvstore` module and its
backend) is not present under `src/`; only its unit tests
(`src/tests/python/unittest/test_kvstore.py`), benchmarks and callers are.
The definitions below are therefore modelled from the specification,
with the unit tests taken as the authority on observable behaviour
wherever they speak (in particular `test_invalid_pull`).

Values are 2-D integer tensors, either dense (a list of rows) or
row-sparse (a list of (row index, row) pairs, absent rows implicitly
zero), matching the data model of the spec (§3).
-/

namespace KVS

/-- Modelled from the spec: storage kind of a stored entry, a closed
tagged variant (spec §3, §9 "Dynamic storage-kind dispatch"). -/
inductive StorageKind where
  | dense
  | rowSparse
deriving DecidableEq

/-- Boolean equality test on storage kinds. -/
def StorageKind.beq : StorageKind → StorageKind → Bool
  | .dense, .dense => true
  | .rowSparse, .rowSparse => true
  | _, _ => false

theorem StorageKind.beq_iff_eq (a b : StorageKind) : StorageKind.beq a b = true ↔ a = b := by
  cases a <;> cases b <;> simp [StorageKind.beq]

/-- Modelled from the spec: the 2-D shape `(num_rows, row_width)` of a
stored entry (spec §3 "Row-Sparse Value"). -/
structure Shape where
  numRows : Nat
  rowWidth : Nat
deriving DecidableEq

/-- Modelled from the spec: a tensor value, dense or row-sparse
(spec §3 "Dense Value" / "Row-Sparse Value"). -/
inductive Value where
  | dense (rows : List (List Int))
  | rsp (rows : List (Nat × List Int))
deriving DecidableEq

/-- The storage kind of a value. -/
def Value.kind : Value → StorageKind
  | .dense _ => .dense
  | .rsp _ => .rowSparse

/-- The all-zero row of a given width. -/
def zeroRow (w : Nat) : List Int := List.replicate w 0

/-- Element-wise sum of two rows. -/
def addRow (a b : List Int) : List Int := List.zipWith (· + ·) a b

/-- Read one row of a row-sparse payload; absent rows read as zero
(spec §3: "absent row indices are implicitly zero vectors"). -/
def rspReadRow (w : Nat) (rows : List (Nat × List Int)) (r : Nat) : List Int :=
  (rows.lookup r).getD (zeroRow w)

/-- Read one row of a value (dense or row-sparse). -/
def Value.readRow (w : Nat) : Value → Nat → List Int
  | .dense rows, r => rows.getD r (zeroRow w)
  | .rsp rows, r => rspReadRow w rows r

/-- Read one element of a value; out-of-range reads are zero. -/
def Value.read (w : Nat) (v : Value) (r c : Nat) : Int :=
  (v.readRow w r).getD c 0

/-- Modelled from the spec: element-wise sum of two row-sparse payloads
over `n` rows of width `w` (spec §4.2, aggregation of row-sparse pushes). -/
def rspAdd (n w : Nat) (a b : List (Nat × List Int)) : List (Nat × List Int) :=
  ((List.range n).filter (fun r => (a.lookup r).isSome || (b.lookup r).isSome)).map
    (fun r => (r, addRow (rspReadRow w a r) (rspReadRow w b r)))

/-- Modelled from the spec: element-wise sum of two values of the same
storage kind (spec §4.2, the Aggregator's combining operation); on a
kind mismatch the left argument is returned unchanged. -/
def Value.add (s : Shape) : Value → Value → Value
  | .dense a, .dense b => .dense (List.zipWith addRow a b)
  | .rsp a, .rsp b => .rsp (rspAdd s.numRows s.rowWidth a b)
  | v, _ => v

/-- The zero value of a given storage kind and shape. -/
def Value.zero (k : StorageKind) (s : Shape) : Value :=
  match k with
  | .dense => .dense (List.replicate s.numRows (zeroRow s.rowWidth))
  | .rowSparse => .rsp []

/-- Modelled from the spec: the Aggregator — combine the pushes of one
round by element-wise sum (spec §4.2). -/
def aggValue (s : Shape) (k : StorageKind) (vals : List Value) : Value :=
  vals.foldl (Value.add s) (Value.zero k s)

/-- Well-formedness of a value for a shape: a dense value has exactly
`numRows` rows of width `rowWidth`; a row-sparse value has in-range row
indices and rows of width `rowWidth`. -/
def wfB (s : Shape) : Value → Bool
  | .dense rows => rows.length == s.numRows && rows.all (fun row => row.length == s.rowWidth)
  | .rsp rows => rows.all (fun p => Nat.blt p.1 s.numRows && p.2.length == s.rowWidth)

/-- Modelled from the spec: a store entry `(shape, storage_kind, value)`;
shape and kind are immutable once initialized, only `value` mutates
(spec §3 "Store Entry"). -/
structure Entry where
  shape : Shape
  kind : StorageKind
  value : Value
deriving DecidableEq

/-- Modelled from the spec: the update hook, consuming
(key, shape, aggregated incoming value, current stored value) and
producing the new stored value (spec §4.3). -/
def Hook (K : Type) := K → Shape → Value → Value → Value

/-- Modelled from the spec: the default hook
`stored_value += aggregated_incoming_value` (spec §4.3). -/
def defaultUpdater {K : Type} : Hook K :=
  fun _ s recv loc => loc.add s recv

/-- Modelled from the spec: error taxonomy of the store (spec §7). -/
inductive KVError where
  | unknownKey
  | duplicateKey
  | shapeMismatch
  | storageKindMismatch
deriving DecidableEq

/-- Modelled from the spec: a store handle exposing `type`, `rank`,
`num_workers`, the entry table and the update hook (spec §3, §6). -/
structure KVStore (K : Type) where
  type : String
  rank : Nat
  num_workers : Nat
  entries : List (K × Entry)
  updater : Hook K

/-- Modelled from the spec: `create(kind)` returns a store handle whose
`type` is the requested kind string; the local variant has rank 0 of 1
worker (spec §6 "Construction"). -/
def create {K : Type} (kind : String) : KVStore K :=
  { type := kind, rank := 0, num_workers := 1, entries := [], updater := defaultUpdater }

/-- The entry currently stored for a key, if any. -/
def entryAt {K : Type} [DecidableEq K] (kv : KVStore K) (k : K) : Option Entry :=
  kv.entries.lookup k

/-- Replace the entry of an existing key, leaving all other keys intact. -/
def setEntry {K : Type} [DecidableEq K] : List (K × Entry) → K → Entry → List (K × Entry)
  | [], _, _ => []
  | p :: ps, k, e => (if p.1 = k then (k, e) else p) :: setEntry ps k e

/-- Modelled from the spec: `init(key, value)` creates the entry exactly
once; re-initializing an existing key is rejected with
`DuplicateKeyError` (spec §4.1). -/
def kvInitE {K : Type} [DecidableEq K] (kv : KVStore K) (k : K) (s : Shape) (v : Value) :
    Except KVError (KVStore K) :=
  match kv.entries.lookup k with
  | some _ => .error .duplicateKey
  | none =>
    if wfB s v then .ok { kv with entries := (k, ⟨s, v.kind, v⟩) :: kv.entries }
    else .error .shapeMismatch

/-- Run `init`, leaving the store unchanged when it fails. -/
def runInit {K : Type} [DecidableEq K] (kv : KVStore K) (k : K) (s : Shape) (v : Value) :
    KVStore K :=
  match kvInitE kv k s v with
  | .ok kv2 => kv2
  | .error _ => kv

/-- Modelled from the spec: one resolved aggregation round on a single
entry — validate the pushed values, combine them with element-wise sum
and hand the combined value to the update hook; a failed validation
leaves the entry unchanged (spec §4.2, §4.3, §7). -/
def pushEntry {K : Type} (hook : Hook K) (k : K) (e : Entry) (vals : List Value) : Entry :=
  if vals.all (fun v => StorageKind.beq v.kind e.kind && wfB e.shape v) then
    { e with value := hook k e.shape (aggValue e.shape e.kind vals) e.value }
  else e

/-- Modelled from the spec: `push(key, values)` — one aggregation round.
On success it also reports the hook-invocation trace of the round: the
list of `(key, aggregated incoming value, previous stored value)`
triples the hook was called with (spec §4.1–§4.3, §7 for the errors). -/
def kvPushE {K : Type} [DecidableEq K] (kv : KVStore K) (k : K) (vals : List Value) :
    Except KVError (KVStore K × List (K × Value × Value)) :=
  match kv.entries.lookup k with
  | none => .error .unknownKey
  | some e =>
    if vals.all (fun v => StorageKind.beq v.kind e.kind && wfB e.shape v) then
      .ok ({ kv with entries := setEntry kv.entries k (pushEntry kv.updater k e vals) },
           [(k, aggValue e.shape e.kind vals, e.value)])
    else if !vals.all (fun v => StorageKind.beq v.kind e.kind) then
      .error .storageKindMismatch
    else
      .error .shapeMismatch

/-- Run `push`, leaving the store unchanged when it fails (spec §7:
a local validation error aborts only the offending operation). -/
def runPush {K : Type} [DecidableEq K] (kv : KVStore K) (k : K) (vals : List Value) :
    KVStore K :=
  match kvPushE kv k vals with
  | .ok p => p.1
  | .error _ => kv

/-- Modelled from the spec and `test_invalid_pull`: `pull(key, out)`
copies the stored dense value out; pulling a dense entry into a
row-sparse buffer is ignored, returning the buffer unchanged (the test
expects no exception and no update); pulling dense semantics from a
row-sparse entry fails with `StorageKindMismatchError` (spec §4.1). -/
def kvPull {K : Type} [DecidableEq K] (kv : KVStore K) (k : K) (out : Value) :
    Except KVError Value :=
  match kv.entries.lookup k with
  | none => .error .unknownKey
  | some e =>
    match e.kind, out.kind with
    | .dense, .dense => .ok e.value
    | .dense, .rowSparse => .ok out
    | .rowSparse, _ => .error .storageKindMismatch

/-- Modelled from the spec: `pull(key, out_list)` with several output
buffers for one key — every dense destination buffer receives the
complete stored value; mismatched buffers are ignored as in `kvPull`. -/
def kvPullList {K : Type} [DecidableEq K] (kv : KVStore K) (k : K) (outs : List Value) :
    Except KVError (List Value) :=
  match kv.entries.lookup k with
  | none => .error .unknownKey
  | some e =>
    match e.kind with
    | .dense => .ok (outs.map (fun out =>
        match out.kind with
        | .dense => e.value
        | .rowSparse => out))
    | .rowSparse => .error .storageKindMismatch

/-- Modelled from the spec: the Row-Sparse Retrieval Engine —
deduplicate the requested row indices and copy each requested row from
the stored value into a fresh row-sparse output; unrequested rows are
omitted and hence read back as zero (spec §4.4). -/
def retainRows (s : Shape) (v : Value) (ids : List Nat) : Value :=
  .rsp (ids.dedup.map (fun r => (r, v.readRow s.rowWidth r)))

/-- Modelled from the spec: `row_sparse_pull(key, outs, row_ids)` with
one row-id set per destination buffer; it fails with
`StorageKindMismatchError` against a dense entry or when any output
buffer is not row-sparse (spec §4.4, §7; `test_invalid_pull`). -/
def kvRowSparsePull {K : Type} [DecidableEq K] (kv : KVStore K) (k : K)
    (outs : List (Value × List Nat)) : Except KVError (List Value) :=
  match kv.entries.lookup k with
  | none => .error .unknownKey
  | some e =>
    match e.kind with
    | .dense => .error .storageKindMismatch
    | .rowSparse =>
      if outs.all (fun p => StorageKind.beq p.1.kind .rowSparse) then
        .ok (outs.map (fun p => retainRows e.shape e.value p.2))
      else .error .storageKindMismatch

/-- Modelled from the spec: `set_updater(hook)` installs the store's
single pluggable update hook (spec §4.3, §6). -/
def setUpdater {K : Type} (kv : KVStore K) (h : Hook K) : KVStore K :=
  { kv with updater := h }

/-- Modelled from the spec: a queued operation of the Dependency
Scheduler (spec §3 "Pending Operation", §4.5). -/
inductive KVOp (K : Type) where
  | push (k : K) (vals : List Value)
  | pull (k : K) (out : Value)
  | rspPull (k : K) (outs : List (Value × List Nat))
deriving DecidableEq

/-- The key an operation addresses. -/
def KVOp.key {K : Type} : KVOp K → K
  | .push k _ => k
  | .pull k _ => k
  | .rspPull k _ => k

/-- Execute one queued operation on the store state; pulls never mutate
the store, and a failed operation leaves it unchanged (spec §4.1, §7). -/
def runOp {K : Type} [DecidableEq K] (kv : KVStore K) : KVOp K → KVStore K
  | .push k vals => runPush kv k vals
  | .pull _ _ => kv
  | .rspPull _ _ => kv

/-- Execute a list of queued operations in submission order (spec §4.5). -/
def runOps {K : Type} [DecidableEq K] (kv : KVStore K) (ops : List (KVOp K)) : KVStore K :=
  ops.foldl runOp kv

/-- The effect of one operation on a single key's entry (pulls leave it
unchanged; a push to an uninitialized key fails and changes nothing). -/
def applyKeyOp {K : Type} (hook : Hook K) : Option Entry → KVOp K → Option Entry
  | some e, .push k vals => some (pushEntry hook k e vals)
  | oe, .push _ _ => oe
  | oe, .pull _ _ => oe
  | oe, .rspPull _ _ => oe

/-- The effect of a sequence of operations on a single key's entry. -/
def applyKeyOps {K : Type} (hook : Hook K) (oe : Option Entry) (ops : List (KVOp K)) :
    Option Entry :=
  ops.foldl (applyKeyOp hook) oe

/-- The subsequence of operations addressed to one key, in submission
order (the key's op-chain of spec §4.5). -/
def opsAt {K : Type} [DecidableEq K] (k : K) (ops : List (KVOp K)) : List (KVOp K) :=
  ops.filter (fun op => decide (op.key = k))

/-! ### Basic list lemmas -/

theorem getD_zipWith_eq {α : Type} (f : α → α → α) (d : α) (hd : f d d = d) :
    ∀ (a b : List α), a.length = b.length →
      ∀ i, (List.zipWith f a b).getD i d = f (a.getD i d) (b.getD i d) := by
  intro a
  induction a with
  | nil =>
    intro b hb i
    cases b with
    | nil => simpa using hd.symm
    | cons y ys => simp at hb
  | cons x xs ih =>
    intro b hb i
    cases b with
    | nil => simp at hb
    | cons y ys =>
      cases i with
      | zero => simp
      | succ j => simpa using ih ys (by simpa using hb) j

theorem getD_replicate_self {α : Type} (a : α) : ∀ (n i : Nat), (List.replicate n a).getD i a = a := by
  intro n
  induction n with
  | zero => intro i; simp
  | succ m ih => intro i; cases i <;> simp [List.replicate_succ, ih]

theorem zeroRow_getD (w c : Nat) : (zeroRow w).getD c 0 = 0 :=
  getD_replicate_self 0 w c

theorem length_zeroRow (w : Nat) : (zeroRow w).length = w := by
  simp [zeroRow]

theorem addRow_zeroRow (w : Nat) : addRow (zeroRow w) (zeroRow w) = zeroRow w := by
  induction w with
  | zero => rfl
  | succ m ih => simp [zeroRow, List.replicate_succ, addRow]

theorem length_addRow {w : Nat} (a b : List Int) (h1 : a.length = w) (h2 : b.length = w) :
    (addRow a b).length = w := by
  simp [addRow, List.length_zipWith, h1, h2]

theorem addRow_getD (a b : List Int) (h : a.length = b.length) (c : Nat) :
    (addRow a b).getD c 0 = a.getD c 0 + b.getD c 0 := by
  simpa [addRow] using getD_zipWith_eq (· + ·) 0 (by simp) a b h c

theorem addRow_comm : ∀ (a b : List Int), addRow a b = addRow b a := by
  intro a
  induction a with
  | nil => intro b; cases b <;> rfl
  | cons x xs ih =>
    intro b
    cases b with
    | nil => rfl
    | cons y ys => simp [addRow, List.zipWith] at ih ⊢; exact ⟨Int.add_comm x y, ih ys⟩

theorem addRow_assoc : ∀ (a b c : List Int), addRow (addRow a b) c = addRow a (addRow b c) := by
  intro a
  induction a with
  | nil => intro b c; rfl
  | cons x xs ih =>
    intro b c
    cases b with
    | nil => rfl
    | cons y ys =>
      cases c with
      | nil => rfl
      | cons z zs =>
        simp [addRow, List.zipWith] at ih ⊢
        exact ⟨Int.add_assoc x y z, ih ys zs⟩

theorem addRow_left_comm (x a b : List Int) :
    addRow (addRow x a) b = addRow (addRow x b) a := by
  rw [addRow_assoc, addRow_assoc, addRow_comm a b]

theorem lookup_map_key {β : Type} (f : Nat → β) :
    ∀ (l : List Nat) (r : Nat),
      (l.map (fun x => (x, f x))).lookup r = if r ∈ l then some (f r) else none := by
  intro l
  induction l with
  | nil => intro r; simp
  | cons x xs ih =>
    intro r
    by_cases hr : r = x
    · subst hr; simp [List.lookup_cons]
    · have hb : (r == x) = false := by simp [hr]
      simp [List.lookup_cons, hb, ih r, List.mem_cons, hr]

theorem mem_of_lookup_eq_some {β : Type} :
    ∀ {l : List (Nat × β)} {r : Nat} {b : β}, l.lookup r = some b → (r, b) ∈ l := by
  intro l
  induction l with
  | nil => intro r b h; simp [List.lookup] at h
  | cons p ps ih =>
    intro r b h
    obtain ⟨k, v⟩ := p
    rw [List.lookup_cons] at h
    by_cases hr : r = k
    · subst hr
      simp at h
      subst h
      exact List.mem_cons_self _ _
    · have hb : (r == k) = false := by simp [hr]
      simp [hb] at h
      exact List.mem_cons_of_mem _ (ih h)

theorem lookup_none_of_ge {β : Type} :
    ∀ (rows : List (Nat × β)) (n r : Nat), (∀ p ∈ rows, p.1 < n) → n ≤ r →
      rows.lookup r = none := by
  intro rows
  induction rows with
  | nil => intro n r _ _; rfl
  | cons p ps ih =>
    intro n r h hr
    obtain ⟨k, v⟩ := p
    have h1 : k < n := h (k, v) (List.mem_cons_self _ _)
    have hb : (r == k) = false := by
      simp only [beq_eq_false_iff_ne, ne_eq]
      omega
    rw [List.lookup_cons]
    simp only [hb]
    exact ih n r (fun q hq => h q (List.mem_cons_of_mem _ hq)) hr

theorem lookup_setEntry_self {K : Type} [DecidableEq K] (k : K) (e : Entry) :
    ∀ (es : List (K × Entry)),
      (setEntry es k e).lookup k = (es.lookup k).map (fun _ => e) := by
  intro es
  induction es with
  | nil => rfl
  | cons p ps ih =>
    obtain ⟨a, b⟩ := p
    by_cases ha : a = k
    · subst ha
      simp [setEntry, List.lookup_cons]
    · have hb : (k == a) = false := by simp [Ne.symm ha]
      simp [setEntry, ha, List.lookup_cons, hb, ih]

theorem lookup_setEntry_ne {K : Type} [DecidableEq K] (k k2 : K) (e : Entry) (hne : k2 ≠ k) :
    ∀ (es : List (K × Entry)), (setEntry es k e).lookup k2 = es.lookup k2 := by
  intro es
  induction es with
  | nil => rfl
  | cons p ps ih =>
    obtain ⟨a, b⟩ := p
    by_cases ha : a = k
    · subst ha
      have hb : (k2 == a) = false := by simp [hne]
      simp [setEntry, List.lookup_cons, hb, ih]
    · simp [setEntry, ha, List.lookup_cons, ih]

/-! ### Well-formedness and reading -/

theorem wfB_dense_iff (s : Shape) (rows : List (List Int)) :
    wfB s (.dense rows) = true ↔
      rows.length = s.numRows ∧ ∀ row ∈ rows, row.length = s.rowWidth := by
  simp [wfB, List.all_eq_true]

theorem wfB_rsp_iff (s : Shape) (rows : List (Nat × List Int)) :
    wfB s (.rsp rows) = true ↔
      ∀ p ∈ rows, p.1 < s.numRows ∧ p.2.length = s.rowWidth := by
  simp [wfB, List.all_eq_true, Nat.blt_eq]

theorem length_rspReadRow (s : Shape) (rows : List (Nat × List Int))
    (h : wfB s (.rsp rows) = true) (r : Nat) :
    (rspReadRow s.rowWidth rows r).length = s.rowWidth := by
  rw [wfB_rsp_iff] at h
  unfold rspReadRow
  cases hl : rows.lookup r with
  | none => simp [length_zeroRow]
  | some row => simpa using (h (r, row) (mem_of_lookup_eq_some hl)).2

theorem length_readRow (s : Shape) (v : Value) (h : wfB s v = true) (r : Nat) :
    (v.readRow s.rowWidth r).length = s.rowWidth := by
  cases v with
  | dense rows =>
    rw [wfB_dense_iff] at h
    show (rows.getD r (zeroRow s.rowWidth)).length = s.rowWidth
    by_cases hr : r < rows.length
    · rw [List.getD_eq_getElem _ _ hr]
      exact h.2 _ (List.getElem_mem hr)
    · rw [List.getD_eq_default _ _ (by omega)]
      exact length_zeroRow _
  | rsp rows => exact length_rspReadRow s rows h r

theorem rspLookup_none_of_ge (s : Shape) (rows : List (Nat × List Int))
    (h : wfB s (.rsp rows) = true) (r : Nat) (hr : s.numRows ≤ r) :
    rows.lookup r = none := by
  rw [wfB_rsp_iff] at h
  exact lookup_none_of_ge rows s.numRows r (fun p hp => (h p hp).1) hr

/-! ### The zero value -/

theorem kind_zero (k : StorageKind) (s : Shape) : (Value.zero k s).kind = k := by
  cases k <;> rfl

theorem wfB_zero (k : StorageKind) (s : Shape) : wfB s (Value.zero k s) = true := by
  cases k with
  | dense =>
    rw [Value.zero, wfB_dense_iff]
    constructor
    · simp
    · intro row hrow
      rw [List.eq_of_mem_replicate hrow]
      exact length_zeroRow _
  | rowSparse => simp [Value.zero, wfB]

theorem readRow_zero (k : StorageKind) (s : Shape) (r : Nat) :
    (Value.zero k s).readRow s.rowWidth r = zeroRow s.rowWidth := by
  cases k with
  | dense => exact getD_replicate_self _ _ _
  | rowSparse => rfl

theorem read_zero (k : StorageKind) (s : Shape) (r c : Nat) :
    (Value.zero k s).read s.rowWidth r c = 0 := by
  rw [Value.read, readRow_zero]
  exact zeroRow_getD _ _

/-! ### The aggregation operation -/

theorem kind_add (s : Shape) (a b : Value) : (a.add s b).kind = a.kind := by
  cases a <;> cases b <;> rfl

theorem lookup_rspAdd (n w : Nat) (a b : List (Nat × List Int)) (r : Nat) :
    (rspAdd n w a b).lookup r =
      if r ∈ (List.range n).filter (fun i => (a.lookup i).isSome || (b.lookup i).isSome)
      then some (addRow (rspReadRow w a r) (rspReadRow w b r)) else none :=
  lookup_map_key _ _ r

theorem readRow_add (s : Shape) (a b : Value) (ha : wfB s a = true) (hb : wfB s b = true)
    (hk : a.kind = b.kind) (r : Nat) :
    (a.add s b).readRow s.rowWidth r =
      addRow (a.readRow s.rowWidth r) (b.readRow s.rowWidth r) := by
  cases a with
  | dense arows =>
    cases b with
    | dense brows =>
      rw [wfB_dense_iff] at ha hb
      show (List.zipWith addRow arows brows).getD r (zeroRow s.rowWidth) = _
      exact getD_zipWith_eq addRow (zeroRow s.rowWidth) (addRow_zeroRow _)
        arows brows (ha.1.trans hb.1.symm) r
    | rsp _ => simp [Value.kind] at hk
  | rsp arows =>
    cases b with
    | dense _ => simp [Value.kind] at hk
    | rsp brows =>
      show rspReadRow s.rowWidth (rspAdd s.numRows s.rowWidth arows brows) r = _
      rw [rspReadRow, lookup_rspAdd]
      by_cases hmem : r ∈ (List.range s.numRows).filter
          (fun i => (arows.lookup i).isSome || (brows.lookup i).isSome)
      · rw [if_pos hmem]
        rfl
      · rw [if_neg hmem]
        by_cases hr : r < s.numRows
        · have hcond : ¬ ((arows.lookup r).isSome || (brows.lookup r).isSome) = true := by
            intro hc
            exact hmem (List.mem_filter.mpr ⟨List.mem_range.mpr hr, hc⟩)
          simp only [Bool.or_eq_true, Option.isSome_iff_exists, not_or] at hcond
          have h1 : arows.lookup r = none := by
            cases h : arows.lookup r with
            | none => rfl
            | some x => exact absurd ⟨x, h⟩ hcond.1
          have h2 : brows.lookup r = none := by
            cases h : brows.lookup r with
            | none => rfl
            | some x => exact absurd ⟨x, h⟩ hcond.2
          show _ = addRow (rspReadRow _ _ _) (rspReadRow _ _ _)
          rw [rspReadRow, rspReadRow, h1, h2]
          simp [addRow_zeroRow]
        · have h1 : arows.lookup r = none := rspLookup_none_of_ge s arows ha r (by omega)
          have h2 : brows.lookup r = none := rspLookup_none_of_ge s brows hb r (by omega)
          show _ = addRow (rspReadRow _ _ _) (rspReadRow _ _ _)
          rw [rspReadRow, rspReadRow, h1, h2]
          simp [addRow_zeroRow]

theorem read_add (s : Shape) (a b : Value) (ha : wfB s a = true) (hb : wfB s b = true)
    (hk : a.kind = b.kind) (r c : Nat) :
    (a.add s b).read s.rowWidth r c = a.read s.rowWidth r c + b.read s.rowWidth r c := by
  rw [Value.read, Value.read, Value.read, readRow_add s a b ha hb hk r]
  exact addRow_getD _ _ ((length_readRow s a ha r).trans (length_readRow s b hb r).symm) c

theorem mem_zipWith_addRow {w : Nat} :
    ∀ (as bs : List (List Int)), (∀ x ∈ as, x.length = w) → (∀ x ∈ bs, x.length = w) →
      ∀ x ∈ List.zipWith addRow as bs, x.length = w := by
  intro as
  induction as with
  | nil => intro bs _ _ x hx; simp at hx
  | cons a as ih =>
    intro bs h1 h2 x hx
    cases bs with
    | nil => simp at hx
    | cons b bs =>
      rw [List.zipWith_cons_cons, List.mem_cons] at hx
      rcases hx with hx | hx
      · subst hx
        exact length_addRow a b (h1 a (List.mem_cons_self _ _)) (h2 b (List.mem_cons_self _ _))
      · exact ih bs (fun y hy => h1 y (List.mem_cons_of_mem _ hy))
          (fun y hy => h2 y (List.mem_cons_of_mem _ hy)) x hx

theorem wfB_add (s : Shape) (a b : Value) (ha : wfB s a = true) (hb : wfB s b = true)
    (hk : a.kind = b.kind) : wfB s (a.add s b) = true := by
  cases a with
  | dense arows =>
    cases b with
    | dense brows =>
      rw [wfB_dense_iff] at ha hb
      show wfB s (.dense (List.zipWith addRow arows brows)) = true
      rw [wfB_dense_iff]
      constructor
      · rw [List.length_zipWith, ha.1, hb.1]
        exact Nat.min_self _
      · exact mem_zipWith_addRow arows brows ha.2 hb.2
    | rsp _ => simp [Value.kind] at hk
  | rsp arows =>
    cases b with
    | dense _ => simp [Value.kind] at hk
    | rsp brows =>
      show wfB s (.rsp (rspAdd s.numRows s.rowWidth arows brows)) = true
      rw [wfB_rsp_iff]
      intro p hp
      rw [rspAdd, List.mem_map] at hp
      obtain ⟨r, hr, hpr⟩ := hp
      have hrn : r < s.numRows := List.mem_range.mp (List.mem_filter.mp hr).1
      subst hpr
      refine ⟨hrn, ?_⟩
      exact length_addRow _ _ (length_rspReadRow s arows ha r) (length_rspReadRow s brows hb r)

theorem wfB_kind_foldl (s : Shape) :
    ∀ (vals : List Value) (acc : Value), wfB s acc = true →
      (∀ v ∈ vals, wfB s v = true ∧ v.kind = acc.kind) →
      wfB s (vals.foldl (Value.add s) acc) = true ∧
        (vals.foldl (Value.add s) acc).kind = acc.kind := by
  intro vals
  induction vals with
  | nil => intro acc hacc _; exact ⟨hacc, rfl⟩
  | cons v vs ih =>
    intro acc hacc h
    have hv := h v (List.mem_cons_self _ _)
    have hacc2 : wfB s (acc.add s v) = true := wfB_add s acc v hacc hv.1 hv.2.symm
    have hk2 : (acc.add s v).kind = acc.kind := kind_add s acc v
    have := ih (acc.add s v) hacc2
      (fun u hu => ⟨(h u (List.mem_cons_of_mem _ hu)).1,
        ((h u (List.mem_cons_of_mem _ hu)).2).trans hk2.symm⟩)
    exact ⟨this.1, this.2.trans hk2⟩

theorem read_foldl_add (s : Shape) :
    ∀ (vals : List Value) (acc : Value) (r c : Nat), wfB s acc = true →
      (∀ v ∈ vals, wfB s v = true ∧ v.kind = acc.kind) →
      (vals.foldl (Value.add s) acc).read s.rowWidth r c =
        acc.read s.rowWidth r c + (vals.map (fun v => v.read s.rowWidth r c)).sum := by
  intro vals
  induction vals with
  | nil => intro acc r c _ _; simp
  | cons v vs ih =>
    intro acc r c hacc h
    have hv := h v (List.mem_cons_self _ _)
    have hacc2 : wfB s (acc.add s v) = true := wfB_add s acc v hacc hv.1 hv.2.symm
    have hk2 : (acc.add s v).kind = acc.kind := kind_add s acc v
    show (vs.foldl (Value.add s) (acc.add s v)).read s.rowWidth r c = _
    rw [ih (acc.add s v) r c hacc2
      (fun u hu => ⟨(h u (List.mem_cons_of_mem _ hu)).1,
        ((h u (List.mem_cons_of_mem _ hu)).2).trans hk2.symm⟩)]
    rw [read_add s acc v hacc hv.1 hv.2.symm r c]
    simp [List.sum_cons]
    ring

theorem read_aggValue (s : Shape) (k : StorageKind) (vals : List Value) (r c : Nat)
    (h : ∀ v ∈ vals, wfB s v = true ∧ v.kind = k) :
    (aggValue s k vals).read s.rowWidth r c =
      (vals.map (fun v => v.read s.rowWidth r c)).sum := by
  rw [aggValue, read_foldl_add s vals (Value.zero k s) r c (wfB_zero k s)
    (fun v hv => ⟨(h v hv).1, (h v hv).2.trans (kind_zero k s).symm⟩)]
  rw [read_zero]
  ring

/-! ### Order-independence of aggregation -/

theorem zipWith_addRow_left_comm :
    ∀ (x a b : List (List Int)),
      List.zipWith addRow (List.zipWith addRow x a) b =
        List.zipWith addRow (List.zipWith addRow x b) a := by
  intro x
  induction x with
  | nil => intro a b; rfl
  | cons xr xs ih =>
    intro a b
    cases a with
    | nil => cases b <;> rfl
    | cons ar as =>
      cases b with
      | nil => rfl
      | cons br bs =>
        simp only [List.zipWith_cons_cons]
        rw [addRow_left_comm, ih as bs]

theorem lookup_rspAdd_isSome (n w : Nat) (a b : List (Nat × List Int)) (r : Nat) :
    ((rspAdd n w a b).lookup r).isSome =
      (decide (r < n) && ((a.lookup r).isSome || (b.lookup r).isSome)) := by
  rw [lookup_rspAdd]
  by_cases hmem : r ∈ (List.range n).filter
      (fun i => (a.lookup i).isSome || (b.lookup i).isSome)
  · have h := List.mem_filter.mp hmem
    rw [if_pos hmem]
    simp [List.mem_range.mp h.1, h.2]
  · rw [if_neg hmem]
    by_cases hr : r < n
    · have hcond : ((a.lookup r).isSome || (b.lookup r).isSome) = false := by
        cases h : ((a.lookup r).isSome || (b.lookup r).isSome) with
        | false => rfl
        | true => exact absurd (List.mem_filter.mpr ⟨List.mem_range.mpr hr, h⟩) hmem
      simp [hcond]
    · simp [hr]

theorem rspReadRow_rspAdd (n w : Nat) (a b : List (Nat × List Int)) (r : Nat) (hr : r < n) :
    rspReadRow w (rspAdd n w a b) r = addRow (rspReadRow w a r) (rspReadRow w b r) := by
  rw [rspReadRow, lookup_rspAdd]
  by_cases hmem : r ∈ (List.range n).filter
      (fun i => (a.lookup i).isSome || (b.lookup i).isSome)
  · rw [if_pos hmem]
    rfl
  · rw [if_neg hmem]
    have hcond : ((a.lookup r).isSome || (b.lookup r).isSome) = false := by
      cases h : ((a.lookup r).isSome || (b.lookup r).isSome) with
      | false => rfl
      | true => exact absurd (List.mem_filter.mpr ⟨List.mem_range.mpr hr, h⟩) hmem
    rw [Bool.or_eq_false_iff] at hcond
    have h1 : a.lookup r = none := Option.not_isSome_iff_eq_none.mp (by simp [hcond.1])
    have h2 : b.lookup r = none := Option.not_isSome_iff_eq_none.mp (by simp [hcond.2])
    rw [rspReadRow, rspReadRow, h1, h2]
    simp [addRow_zeroRow]

theorem rspAdd_eq_def (n w : Nat) (a b : List (Nat × List Int)) :
    rspAdd n w a b =
      ((List.range n).filter (fun r => (a.lookup r).isSome || (b.lookup r).isSome)).map
        (fun r => (r, addRow (rspReadRow w a r) (rspReadRow w b r))) := rfl

theorem rspAdd_left_comm (n w : Nat) (x a b : List (Nat × List Int)) :
    rspAdd n w (rspAdd n w x a) b = rspAdd n w (rspAdd n w x b) a := by
  rw [rspAdd_eq_def n w (rspAdd n w x a) b, rspAdd_eq_def n w (rspAdd n w x b) a]
  have hfilter : (List.range n).filter
      (fun r => ((rspAdd n w x a).lookup r).isSome || (b.lookup r).isSome) =
      (List.range n).filter
        (fun r => ((rspAdd n w x b).lookup r).isSome || (a.lookup r).isSome) := by
    apply List.filter_congr
    intro r hr
    have h1 : r < n := List.mem_range.mp hr
    rw [lookup_rspAdd_isSome, lookup_rspAdd_isSome]
    simp only [h1, decide_True, Bool.true_and]
    cases (x.lookup r).isSome <;> cases (a.lookup r).isSome <;>
      cases (b.lookup r).isSome <;> rfl
  rw [hfilter]
  apply List.map_congr_left
  intro r hr
  have h1 : r < n := List.mem_range.mp (List.mem_filter.mp hr).1
  rw [rspReadRow_rspAdd n w x a r h1, rspReadRow_rspAdd n w x b r h1, addRow_left_comm]

theorem add_left_comm_v (s : Shape) (x a b : Value) :
    (x.add s a).add s b = (x.add s b).add s a := by
  cases x <;> cases a <;> cases b <;>
    simp only [Value.add] <;>
    first
      | rfl
      | exact congrArg Value.dense (zipWith_addRow_left_comm _ _ _)
      | exact congrArg Value.rsp (rspAdd_left_comm _ _ _ _ _)

theorem foldl_add_perm (s : Shape) {l1 l2 : List Value} (hp : l1.Perm l2) :
    ∀ acc, l1.foldl (Value.add s) acc = l2.foldl (Value.add s) acc := by
  induction hp with
  | nil => intro acc; rfl
  | cons x _ ih => intro acc; exact ih _
  | swap x y l =>
    intro acc
    show List.foldl _ ((acc.add s y).add s x) l = List.foldl _ ((acc.add s x).add s y) l
    rw [add_left_comm_v]
  | trans _ _ ih1 ih2 => intro acc; rw [ih1, ih2]

theorem aggValue_perm (s : Shape) (k : StorageKind) {l1 l2 : List Value} (hp : l1.Perm l2) :
    aggValue s k l1 = aggValue s k l2 :=
  foldl_add_perm s hp (Value.zero k s)

theorem all_perm {α : Type} (p : α → Bool) {l1 l2 : List α} (hp : l1.Perm l2) :
    l1.all p = l2.all p := by
  cases h2 : l2.all p with
  | true =>
    exact List.all_eq_true.mpr
      (fun x hx => List.all_eq_true.mp h2 x (hp.mem_iff.mp hx))
  | false =>
    cases h1 : l1.all p with
    | false => rfl
    | true =>
      have := List.all_eq_true.mpr
        (fun x hx => List.all_eq_true.mp h1 x (hp.mem_iff.mpr hx))
      rw [h2] at this
      exact absurd this (by simp)

/-! ### Row-sparse retrieval -/

theorem read_retainRows (s : Shape) (v : Value) (ids : List Nat) (r c : Nat) :
    (retainRows s v ids).read s.rowWidth r c =
      if r ∈ ids then v.read s.rowWidth r c else 0 := by
  have hshow : (retainRows s v ids).read s.rowWidth r c =
      (((ids.dedup.map (fun i => (i, v.readRow s.rowWidth i))).lookup r).getD
        (zeroRow s.rowWidth)).getD c 0 := rfl
  rw [hshow, lookup_map_key (fun i => v.readRow s.rowWidth i) ids.dedup r]
  by_cases hr : r ∈ ids
  · rw [if_pos (List.mem_dedup.mpr hr), if_pos hr]
    rfl
  · rw [if_neg (fun hm => hr (List.mem_dedup.mp hm)), if_neg hr]
    exact zeroRow_getD _ _

/-! ### Store-level push and scheduling lemmas -/

theorem kvPushE_ok {K : Type} [DecidableEq K] {kv : KVStore K} {k : K} {vals : List Value}
    {p : KVStore K × List (K × Value × Value)} (h : kvPushE kv k vals = .ok p) :
    ∃ e, kv.entries.lookup k = some e ∧
      vals.all (fun v => StorageKind.beq v.kind e.kind && wfB e.shape v) = true ∧
      p = ({ kv with entries := setEntry kv.entries k (pushEntry kv.updater k e vals) },
           [(k, aggValue e.shape e.kind vals, e.value)]) := by
  rw [kvPushE] at h
  split at h
  · exact absurd h (by simp)
  · rename_i e hl
    split at h
    · rename_i hg
      exact ⟨e, hl, hg, (Except.ok.inj h).symm⟩
    · split at h <;> exact absurd h (by simp)

theorem updater_runPush {K : Type} [DecidableEq K] (kv : KVStore K) (k : K)
    (vals : List Value) : (runPush kv k vals).updater = kv.updater := by
  rw [runPush]
  cases h : kvPushE kv k vals with
  | error e => rfl
  | ok p =>
    obtain ⟨e, _, _, hp⟩ := kvPushE_ok h
    rw [hp]

theorem updater_runOp {K : Type} [DecidableEq K] (kv : KVStore K) (op : KVOp K) :
    (runOp kv op).updater = kv.updater := by
  cases op with
  | push k vals => exact updater_runPush kv k vals
  | pull _ _ => rfl
  | rspPull _ _ => rfl

theorem entryAt_runPush_self {K : Type} [DecidableEq K] (kv : KVStore K) (k : K)
    (vals : List Value) :
    entryAt (runPush kv k vals) k =
      (entryAt kv k).map (fun e => pushEntry kv.updater k e vals) := by
  rw [runPush]
  cases h : kvPushE kv k vals with
  | error err =>
    rw [kvPushE] at h
    split at h
    · rename_i hl
      simp [entryAt, hl]
    · rename_i e hl
      split at h
      · exact absurd h (by simp)
      · rename_i hg
        simp only [entryAt, hl, Option.map_some']
        rw [pushEntry, if_neg hg]
  | ok p =>
    obtain ⟨e, hl, hg, hp⟩ := kvPushE_ok h
    rw [hp]
    show (setEntry kv.entries k (pushEntry kv.updater k e vals)).lookup k = _
    rw [lookup_setEntry_self, entryAt, hl]
    rfl

theorem entryAt_runPush_ne {K : Type} [DecidableEq K] (kv : KVStore K) (k k2 : K)
    (vals : List Value) (hne : k2 ≠ k) :
    entryAt (runPush kv k vals) k2 = entryAt kv k2 := by
  rw [runPush]
  cases h : kvPushE kv k vals with
  | error err => rfl
  | ok p =>
    obtain ⟨e, hl, hg, hp⟩ := kvPushE_ok h
    rw [hp]
    exact lookup_setEntry_ne k k2 _ hne kv.entries

theorem entryAt_runOp {K : Type} [DecidableEq K] (kv : KVStore K) (op : KVOp K) (k : K) :
    entryAt (runOp kv op) k =
      if op.key = k then applyKeyOp kv.updater (entryAt kv k) op else entryAt kv k := by
  cases op with
  | push k0 vals =>
    simp only [KVOp.key]
    by_cases hk : k0 = k
    · subst hk
      rw [if_pos rfl]
      show entryAt (runPush kv k0 vals) k0 = _
      rw [entryAt_runPush_self]
      cases entryAt kv k0 <;> rfl
    · rw [if_neg hk]
      exact entryAt_runPush_ne kv k0 k vals (Ne.symm hk)
  | pull k0 out =>
    simp only [KVOp.key]
    by_cases hk : k0 = k
    · subst hk
      rw [if_pos rfl]
      show entryAt kv k0 = applyKeyOp kv.updater (entryAt kv k0) (KVOp.pull k0 out)
      cases entryAt kv k0 <;> rfl
    · rw [if_neg hk]; rfl
  | rspPull k0 outs =>
    simp only [KVOp.key]
    by_cases hk : k0 = k
    · subst hk
      rw [if_pos rfl]
      show entryAt kv k0 = applyKeyOp kv.updater (entryAt kv k0) (KVOp.rspPull k0 outs)
      cases entryAt kv k0 <;> rfl
    · rw [if_neg hk]; rfl

theorem opsAt_cons {K : Type} [DecidableEq K] (k : K) (op : KVOp K) (ops : List (KVOp K)) :
    opsAt k (op :: ops) =
      if op.key = k then op :: opsAt k ops else opsAt k ops := by
  by_cases hk : op.key = k
  · simp [opsAt, List.filter, hk]
  · simp [opsAt, List.filter, hk]

theorem entryAt_runOps {K : Type} [DecidableEq K] (k : K) :
    ∀ (ops : List (KVOp K)) (kv : KVStore K),
      entryAt (runOps kv ops) k = applyKeyOps kv.updater (entryAt kv k) (opsAt k ops) := by
  intro ops
  induction ops with
  | nil => intro kv; rfl
  | cons op ops ih =>
    intro kv
    show entryAt (runOps (runOp kv op) ops) k = _
    rw [ih (runOp kv op), updater_runOp, entryAt_runOp, opsAt_cons]
    by_cases hk : op.key = k
    · rw [if_pos hk, if_pos hk]
      rfl
    · rw [if_neg hk, if_neg hk]

theorem kvPushE_perm {K : Type} [DecidableEq K] (kv : KVStore K) (k : K)
    {vals vals2 : List Value} (hp : vals.Perm vals2) :
    kvPushE kv k vals = kvPushE kv k vals2 := by
  rw [kvPushE, kvPushE]
  cases hl : kv.entries.lookup k with
  | none => rfl
  | some e =>
    have hg : vals.all (fun v => StorageKind.beq v.kind e.kind && wfB e.shape v) =
        vals2.all (fun v => StorageKind.beq v.kind e.kind && wfB e.shape v) :=
      all_perm _ hp
    have hg2 : vals.all (fun v => StorageKind.beq v.kind e.kind) =
        vals2.all (fun v => StorageKind.beq v.kind e.kind) :=
      all_perm _ hp
    have ha : aggValue e.shape e.kind vals = aggValue e.shape e.kind vals2 :=
      aggValue_perm _ _ hp
    have hpe : pushEntry kv.updater k e vals = pushEntry kv.updater k e vals2 := by
      rw [pushEntry, pushEntry, hg, ha]
    dsimp only
    rw [hg, hg2, ha, hpe]

theorem read_zero_of_ge (s : Shape) (v : Value) (h : wfB s v = true) (r c : Nat)
    (hr : s.numRows ≤ r) : v.read s.rowWidth r c = 0 := by
  cases v with
  | dense rows =>
    rw [wfB_dense_iff] at h
    obtain ⟨h1, _⟩ := h
    show (rows.getD r (zeroRow s.rowWidth)).getD c 0 = 0
    rw [List.getD_eq_default rows (zeroRow s.rowWidth) (by omega)]
    exact zeroRow_getD _ _
  | rsp rows =>
    show (rspReadRow s.rowWidth rows r).getD c 0 = 0
    rw [rspReadRow, rspLookup_none_of_ge s rows h r hr]
    exact zeroRow_getD _ _

/-! ### Concrete fixtures mirroring the unit tests (shape (4,4), keys 3 and 5) -/

/-- The shape `(4, 4)` used throughout the unit tests. -/
def shape44 : Shape := ⟨4, 4⟩

/-- The dense `(4,4)` tensor with every element equal to `x`. -/
def scalar44 (x : Int) : Value := .dense (List.replicate 4 (List.replicate 4 x))

/-- `ones(4,4)`, the value each device pushes in the tests. -/
def ones44 : Value := scalar44 1

/-- A local store with dense key 3 initialized to zeros, as `init_kv` does. -/
def kv44 : KVStore Nat := runInit (create "local") 3 shape44 (Value.zero .dense shape44)

/-- A row-sparse `(4,4)` value with every row present and equal to ones,
as `kv.init` with `ones(4,4).tostype(row_sparse)` produces. -/
def rspOnes44 : Value :=
  .rsp [(0, [1, 1, 1, 1]), (1, [1, 1, 1, 1]), (2, [1, 1, 1, 1]), (3, [1, 1, 1, 1])]

/-- The row-sparse conversion of `2 * ones(4,4)` used by `test_invalid_pull`. -/
def rspTwos44 : Value :=
  .rsp [(0, [2, 2, 2, 2]), (1, [2, 2, 2, 2]), (2, [2, 2, 2, 2]), (3, [2, 2, 2, 2])]

/-- An empty row-sparse output buffer, as `zeros.tostype(row_sparse)`. -/
def rspEmpty44 : Value := .rsp []

/-- A local store with row-sparse key 5 initialized to `rspOnes44`. -/
def kvRsp : KVStore Nat := runInit (create "local") 5 shape44 rspOnes44

/-- The custom hook installed by `test_updater`: `local += recv`. -/
def accumulateHook {K : Type} : Hook K := fun _ s recv loc => loc.add s recv

/-! ### Claims -/

/-- C9: for every kind string `s`, `create(s)` returns a store handle whose
`type` attribute equals `s` exactly, and the handle exposes `rank` and
`num_workers` with `rank ∈ [0, num_workers)`. -/
theorem C9_create_type (K : Type) (s : String) :
    (create (K := K) s).type = s ∧
      (create (K := K) s).rank < (create (K := K) s).num_workers :=
  ⟨rfl, Nat.zero_lt_one⟩

/-- C3 counterexample: pulling the dense-stored key 3 into the row-sparse
buffer `rspTwos44` does NOT raise `StorageKindMismatchError` — it returns
without error with the buffer unchanged, exactly as `test_invalid_pull`
expects ("pull should be ignored with no values updated", with no
try/except around the plain `pull`). -/
theorem C3_counterexample :
    kvPull kv44 3 rspTwos44 = .ok rspTwos44 ∧
      kvPull kv44 3 rspTwos44 ≠ .error .storageKindMismatch := by
  have h : kvPull kv44 3 rspTwos44 = .ok rspTwos44 := rfl
  refine ⟨h, ?_⟩
  rw [h]
  simp

/-- C3 (amended): pulling a dense-stored key into a row-sparse output
buffer leaves the output buffer's prior content unchanged, and the
operation is silently ignored (no error is raised) rather than raising
`StorageKindMismatchError`. -/
theorem C3_pull_ignored {K : Type} [DecidableEq K] (kv : KVStore K) (k : K) (e : Entry)
    (out : Value) (he : entryAt kv k = some e) (hk : e.kind = .dense)
    (hout : out.kind = .rowSparse) :
    kvPull kv k out = .ok out := by
  have he2 : kv.entries.lookup k = some e := he
  rw [kvPull, he2]
  dsimp only
  rw [hk, hout]

/-- C3 witness: the amended statement at the concrete store of
`test_invalid_pull`. -/
theorem C3_pull_ignored_witness :
    entryAt kv44 3 = some ⟨shape44, .dense, Value.zero .dense shape44⟩ ∧
      kvPull kv44 3 rspTwos44 = .ok rspTwos44 :=
  ⟨by decide,
    C3_pull_ignored kv44 3 ⟨shape44, .dense, Value.zero .dense shape44⟩ rspTwos44
      (by decide) rfl rfl⟩

/-- C6: neither `pull` nor `row_sparse_pull` ever mutates the store —
running them as scheduled operations returns the store unchanged, every
entry is untouched, and repeating the same row-sparse pull with identical
ids on an entry that received no pushes in between yields the identical
result. -/
theorem C6_pull_pure {K : Type} [DecidableEq K] (kv : KVStore K) (k k2 : K) (out : Value)
    (outs : List (Value × List Nat)) :
    runOp kv (.pull k out) = kv ∧
      runOp kv (.rspPull k outs) = kv ∧
      kvRowSparsePull (runOp kv (.rspPull k outs)) k outs = kvRowSparsePull kv k outs ∧
      entryAt (runOp kv (.pull k out)) k2 = entryAt kv k2 :=
  ⟨rfl, rfl, rfl, rfl⟩

/-- C2: for an initialized row-sparse key, `row_sparse_pull` succeeds for
any list of output buffers with one id-set each (a single buffer being
the singleton list), filling each output with exactly the deduplicated
requested rows copied from the stored entry; a row not in the ids reads
back as zero, and a row that reads zero in the store (never pushed) reads
zero in the output regardless of the ids. -/
theorem C2_row_sparse_pull {K : Type} [DecidableEq K] (kv : KVStore K) (k : K) (e : Entry)
    (outs : List (Value × List Nat))
    (he : entryAt kv k = some e) (hk : e.kind = .rowSparse)
    (houts : outs.all (fun p => StorageKind.beq p.1.kind .rowSparse) = true) :
    kvRowSparsePull kv k outs = .ok (outs.map (fun p => retainRows e.shape e.value p.2)) ∧
      ∀ ids r c,
        ((retainRows e.shape e.value ids).read e.shape.rowWidth r c =
          if r ∈ ids then e.value.read e.shape.rowWidth r c else 0) ∧
        (e.value.read e.shape.rowWidth r c = 0 →
          (retainRows e.shape e.value ids).read e.shape.rowWidth r c = 0) := by
  constructor
  · have he2 : kv.entries.lookup k = some e := he
    rw [kvRowSparsePull, he2]
    dsimp only
    rw [hk]
    dsimp only
    rw [if_pos houts]
  · intro ids r c
    refine ⟨read_retainRows e.shape e.value ids r c, fun hz => ?_⟩
    rw [read_retainRows]
    by_cases hr : r ∈ ids
    · rw [if_pos hr]
      exact hz
    · rw [if_neg hr]

/-- C2 witness: pulling rows `[1, 3, 1]` (with a duplicate) and `[0]`
into two row-sparse buffers from the row-sparse store of the tests. -/
theorem C2_row_sparse_pull_witness :
    entryAt kvRsp 5 = some ⟨shape44, .rowSparse, rspOnes44⟩ ∧
      kvRowSparsePull kvRsp 5 [(rspEmpty44, [1, 3, 1]), (rspEmpty44, [0])] =
        .ok ([(rspEmpty44, [1, 3, 1]), (rspEmpty44, [0])].map
          (fun p => retainRows shape44 rspOnes44 p.2)) :=
  ⟨by decide,
    (C2_row_sparse_pull kvRsp 5 ⟨shape44, .rowSparse, rspOnes44⟩
      [(rspEmpty44, [1, 3, 1]), (rspEmpty44, [0])] (by decide) rfl (by decide)).1⟩

/-- C7: `row_sparse_pull` against a dense-stored entry, or with any
output buffer that is not row-sparse, fails with
`StorageKindMismatchError`, and as a scheduled operation it performs no
mutation of the store at all. -/
theorem C7_rsp_pull_errors {K : Type} [DecidableEq K] (kv : KVStore K) (k : K) (e : Entry)
    (outs : List (Value × List Nat)) (he : entryAt kv k = some e) :
    (e.kind = .dense → kvRowSparsePull kv k outs = .error .storageKindMismatch) ∧
      (e.kind = .rowSparse → (∃ p ∈ outs, p.1.kind ≠ .rowSparse) →
        kvRowSparsePull kv k outs = .error .storageKindMismatch) ∧
      runOp kv (.rspPull k outs) = kv := by
  have he2 : kv.entries.lookup k = some e := he
  refine ⟨?_, ?_, rfl⟩
  · intro hk
    rw [kvRowSparsePull, he2]
    dsimp only
    rw [hk]
  · intro hk hbad
    rw [kvRowSparsePull, he2]
    dsimp only
    rw [hk]
    dsimp only
    obtain ⟨p, hp, hpk⟩ := hbad
    have hall : ¬ outs.all (fun q => StorageKind.beq q.1.kind .rowSparse) = true := by
      intro hall
      exact hpk ((StorageKind.beq_iff_eq _ _).mp (List.all_eq_true.mp hall p hp))
    rw [if_neg hall]

/-- C7 witness: `row_sparse_pull` on the dense key 3, and on the
row-sparse key 5 with a dense output buffer, both fail with
`StorageKindMismatchError`. -/
theorem C7_rsp_pull_errors_witness :
    entryAt kvRsp 5 = some ⟨shape44, .rowSparse, rspOnes44⟩ ∧
      (∃ p ∈ [((scalar44 2), [1])], p.1.kind ≠ StorageKind.rowSparse) ∧
      kvRowSparsePull kvRsp 5 [((scalar44 2), [1])] = .error .storageKindMismatch :=
  ⟨by decide, ⟨(scalar44 2, [1]), by simp, by decide⟩,
    (C7_rsp_pull_errors kvRsp 5 ⟨shape44, .rowSparse, rspOnes44⟩ [((scalar44 2), [1])]
      (by decide)).2.1 rfl ⟨(scalar44 2, [1]), by simp, by decide⟩⟩

/-- C8: operations on the same key execute strictly in submission order:
the entry a pull observes after a list of scheduled operations is exactly
the in-order application of that key's own op-chain (every push round and
its hook, none reordered or dropped), and any two global schedules with
the same per-key subsequence for a key yield the same entry for it. -/
theorem C8_key_order {K : Type} [DecidableEq K] (kv : KVStore K)
    (ops1 ops2 : List (KVOp K)) (k : K) (h : opsAt k ops1 = opsAt k ops2) :
    entryAt (runOps kv ops1) k = applyKeyOps kv.updater (entryAt kv k) (opsAt k ops1) ∧
      entryAt (runOps kv ops1) k = entryAt (runOps kv ops2) k := by
  refine ⟨entryAt_runOps k ops1 kv, ?_⟩
  rw [entryAt_runOps k ops1 kv, entryAt_runOps k ops2 kv, h]

/-- C8 witness: two interleavings of pushes to keys 3 and 5 that agree on
key 3's subsequence observe the same entry for key 3. -/
theorem C8_key_order_witness :
    opsAt 3 [KVOp.push 3 [ones44], KVOp.push 5 [rspOnes44], KVOp.push 3 [scalar44 2]] =
      opsAt 3 [KVOp.push 3 [ones44], KVOp.push 3 [scalar44 2], KVOp.push 5 [rspOnes44]] ∧
      entryAt (runOps kv44
          [KVOp.push 3 [ones44], KVOp.push 5 [rspOnes44], KVOp.push 3 [scalar44 2]]) 3 =
        entryAt (runOps kv44
          [KVOp.push 3 [ones44], KVOp.push 3 [scalar44 2], KVOp.push 5 [rspOnes44]]) 3 :=
  ⟨by decide,
    (C8_key_order kv44
      [KVOp.push 3 [ones44], KVOp.push 5 [rspOnes44], KVOp.push 3 [scalar44 2]]
      [KVOp.push 3 [ones44], KVOp.push 3 [scalar44 2], KVOp.push 5 [rspOnes44]]
      3 (by decide)).2⟩

/-- C1: for a dense key initialized to zeros, N concurrent pushes of the
same value `v` before a pull, with the default hook, make the subsequent
pull return `N * v`; concretely 4 devices pushing `ones(4,4)` to key 3
make pull return `4 * ones(4,4)`, and 4 such rounds under the accumulate
hook yield `16 * ones(4,4)`. -/
theorem C1_aggregation {K : Type} [DecidableEq K] (kv : KVStore K) (k : K) (s : Shape)
    (v : Value) (N : Nat) (out : Value)
    (hupd : kv.updater = @defaultUpdater K)
    (he : entryAt kv k = some ⟨s, .dense, Value.zero .dense s⟩)
    (hv : wfB s v = true) (hkind : v.kind = .dense) (hout : out.kind = .dense) :
    (∃ w, kvPull (runPush kv k (List.replicate N v)) k out = .ok w ∧
      ∀ r c, w.read s.rowWidth r c = (N : Int) * v.read s.rowWidth r c) ∧
      kvPull (runPush kv44 3 (List.replicate 4 ones44)) 3 (Value.zero .dense shape44) =
        .ok (scalar44 4) ∧
      kvPull (runOps kv44 (List.replicate 4 (KVOp.push 3 (List.replicate 4 ones44)))) 3
        (Value.zero .dense shape44) = .ok (scalar44 16) := by
  refine ⟨?_, rfl, rfl⟩
  have hmem : ∀ u ∈ List.replicate N v, wfB s u = true ∧ u.kind = StorageKind.dense := by
    intro u hu
    rw [List.eq_of_mem_replicate hu]
    exact ⟨hv, hkind⟩
  have hmem2 : ∀ u ∈ List.replicate N v,
      wfB s u = true ∧ u.kind = (Value.zero .dense s).kind := by
    intro u hu
    exact ⟨(hmem u hu).1, (hmem u hu).2.trans (kind_zero _ _).symm⟩
  have hg : (List.replicate N v).all
      (fun u => StorageKind.beq u.kind StorageKind.dense && wfB s u) = true := by
    apply List.all_eq_true.mpr
    intro u hu
    rw [Bool.and_eq_true, StorageKind.beq_iff_eq]
    exact ⟨(hmem u hu).2, (hmem u hu).1⟩
  have hwfk := wfB_kind_foldl s (List.replicate N v) (Value.zero .dense s)
    (wfB_zero _ _) hmem2
  have hEntry : entryAt (runPush kv k (List.replicate N v)) k =
      some ⟨s, .dense,
        (Value.zero .dense s).add s (aggValue s .dense (List.replicate N v))⟩ := by
    rw [entryAt_runPush_self, he, Option.map_some']
    congr 1
    rw [pushEntry]
    dsimp only
    rw [if_pos hg, hupd]
    rfl
  refine ⟨(Value.zero .dense s).add s (aggValue s .dense (List.replicate N v)), ?_, ?_⟩
  · have h2 : (runPush kv k (List.replicate N v)).entries.lookup k =
        some ⟨s, .dense,
          (Value.zero .dense s).add s (aggValue s .dense (List.replicate N v))⟩ := hEntry
    rw [kvPull, h2]
    dsimp only
    rw [hout]
  · intro r c
    have hwfagg : wfB s (aggValue s .dense (List.replicate N v)) = true := hwfk.1
    have hkk : (Value.zero StorageKind.dense s).kind =
        (aggValue s .dense (List.replicate N v)).kind := hwfk.2.symm
    rw [read_add s (Value.zero StorageKind.dense s)
        (aggValue s .dense (List.replicate N v)) (wfB_zero _ _) hwfagg hkk r c,
      read_zero, read_aggValue s .dense (List.replicate N v) r c hmem,
      List.map_replicate, List.sum_replicate, nsmul_eq_mul]
    ring

/-- C1 witness: 4 pushes of `ones(4,4)` to the zero-initialized key 3 of
a default-hook store make the pull read `4 * ones(4,4)`. -/
theorem C1_aggregation_witness :
    wfB shape44 ones44 = true ∧
      (∃ w, kvPull (runPush kv44 3 (List.replicate 4 ones44)) 3
          (Value.zero .dense shape44) = .ok w ∧
        ∀ r c, w.read shape44.rowWidth r c = ((4 : Nat) : Int) * ones44.read shape44.rowWidth r c) :=
  ⟨by decide,
    (C1_aggregation kv44 3 shape44 ones44 4 (Value.zero .dense shape44) rfl (by decide)
      (by decide) rfl rfl).1⟩

/-- C4: a successful push round invokes the installed hook exactly once,
with arguments (key, aggregated incoming value, current stored value) —
the invocation trace of the round is the singleton of that triple — and
a pull after the round returns exactly the hook-mutated stored value,
not the raw aggregated push value; concretely, installing the
`local += recv` hook and running 4 rounds of 4 unit pushes stores
`16 * ones(4,4)`. -/
theorem C4_hook_once {K : Type} [DecidableEq K] (kv : KVStore K) (k : K) (e : Entry)
    (vals : List Value) (he : entryAt kv k = some e)
    (hg : vals.all (fun u => StorageKind.beq u.kind e.kind && wfB e.shape u) = true) :
    kvPushE kv k vals = .ok
      (KVStore.mk kv.type kv.rank kv.num_workers
        (setEntry kv.entries k (Entry.mk e.shape e.kind
          (kv.updater k e.shape (aggValue e.shape e.kind vals) e.value))) kv.updater,
       [(k, aggValue e.shape e.kind vals, e.value)]) ∧
      entryAt (runPush kv k vals) k =
        some ⟨e.shape, e.kind, kv.updater k e.shape (aggValue e.shape e.kind vals) e.value⟩ ∧
      (∀ out, e.kind = .dense → out.kind = .dense →
        kvPull (runPush kv k vals) k out =
          .ok (kv.updater k e.shape (aggValue e.shape e.kind vals) e.value)) ∧
      entryAt (runOps (setUpdater kv44 accumulateHook)
          (List.replicate 4 (KVOp.push 3 (List.replicate 4 ones44)))) 3 =
        some ⟨shape44, .dense, scalar44 16⟩ := by
  have he2 : kv.entries.lookup k = some e := he
  have hpe : pushEntry kv.updater k e vals =
      ⟨e.shape, e.kind, kv.updater k e.shape (aggValue e.shape e.kind vals) e.value⟩ := by
    rw [pushEntry, if_pos hg]
  have hEntry : entryAt (runPush kv k vals) k =
      some ⟨e.shape, e.kind, kv.updater k e.shape (aggValue e.shape e.kind vals) e.value⟩ := by
    rw [entryAt_runPush_self, he, Option.map_some', hpe]
  refine ⟨?_, hEntry, ?_, by decide⟩
  · rw [kvPushE, he2]
    dsimp only
    rw [if_pos hg, hpe]
  · intro out hk hout
    have h2 : (runPush kv k vals).entries.lookup k =
        some ⟨e.shape, e.kind, kv.updater k e.shape (aggValue e.shape e.kind vals) e.value⟩ :=
      hEntry
    rw [kvPull, h2]
    dsimp only
    rw [hk, hout]

/-- C4 witness: one round of 4 unit pushes on key 3 leaves the store with
exactly the hook-updated value. -/
theorem C4_hook_once_witness :
    entryAt kv44 3 = some ⟨shape44, .dense, Value.zero .dense shape44⟩ ∧
      (List.replicate 4 ones44).all
        (fun u => StorageKind.beq u.kind StorageKind.dense && wfB shape44 u) = true ∧
      entryAt (runPush kv44 3 (List.replicate 4 ones44)) 3 =
        some ⟨shape44, .dense, kv44.updater 3 shape44
          (aggValue shape44 .dense (List.replicate 4 ones44)) (Value.zero .dense shape44)⟩ :=
  ⟨by decide, by decide,
    (C4_hook_once kv44 3 ⟨shape44, .dense, Value.zero .dense shape44⟩
      (List.replicate 4 ones44) (by decide) (by decide)).2.1⟩

/-- C5: within one round the aggregated value is the element-wise sum of
the pushed values, and — sum being commutative and associative — the
aggregate, the resulting store and any subsequent pull are invariant
under every permutation of the arrival order of the pushes. -/
theorem C5_sum_perm {K : Type} [DecidableEq K] (kv : KVStore K) (k : K) (s : Shape)
    (kind : StorageKind) (vals vals2 : List Value) (out : Value)
    (h : ∀ v ∈ vals, wfB s v = true ∧ v.kind = kind)
    (hp : vals.Perm vals2) :
    (∀ r c, (aggValue s kind vals).read s.rowWidth r c =
      (vals.map (fun v => v.read s.rowWidth r c)).sum) ∧
      aggValue s kind vals = aggValue s kind vals2 ∧
      runPush kv k vals = runPush kv k vals2 ∧
      kvPull (runPush kv k vals) k out = kvPull (runPush kv k vals2) k out := by
  have hr : runPush kv k vals = runPush kv k vals2 := by
    rw [runPush, runPush, kvPushE_perm kv k hp]
  refine ⟨fun r c => read_aggValue s kind vals r c h, aggValue_perm s kind hp, hr, ?_⟩
  rw [hr]

/-- C5 witness: two pushed values aggregated in either order give the
same aggregate, at the concrete shape of the tests. -/
theorem C5_sum_perm_witness :
    (∀ v ∈ [ones44, scalar44 2], wfB shape44 v = true ∧ v.kind = StorageKind.dense) ∧
      aggValue shape44 .dense [ones44, scalar44 2] =
        aggValue shape44 .dense [scalar44 2, ones44] :=
  ⟨by decide,
    (C5_sum_perm kv44 3 shape44 .dense [ones44, scalar44 2] [scalar44 2, ones44]
      (Value.zero .dense shape44) (by decide) (by decide)).2.1⟩

/-- C10: a pull with a list of output buffers for one key broadcasts the
complete stored value to every dense buffer (never partitioning it), and
a row-sparse pull with the complete row-id set per buffer fills every
buffer with a value reading identically to the stored entry; the result
is independent of the buffers' prior contents, so buffers used as push
inputs may be reused as pull outputs. -/
theorem C10_broadcast {K : Type} [DecidableEq K] (kv : KVStore K) (k : K) (e : Entry)
    (outs : List Value) (he : entryAt kv k = some e) :
    (e.kind = .dense → (∀ o ∈ outs, o.kind = .dense) →
      kvPullList kv k outs = .ok (outs.map (fun _ => e.value))) ∧
      (e.kind = .rowSparse →
        (outs.all (fun o => StorageKind.beq o.kind .rowSparse) = true →
          kvRowSparsePull kv k (outs.map (fun o => (o, List.range e.shape.numRows))) =
            .ok (outs.map (fun _ => retainRows e.shape e.value (List.range e.shape.numRows)))) ∧
        (wfB e.shape e.value = true → ∀ r c,
          (retainRows e.shape e.value (List.range e.shape.numRows)).read e.shape.rowWidth r c =
            e.value.read e.shape.rowWidth r c)) := by
  have he2 : kv.entries.lookup k = some e := he
  constructor
  · intro hk houts
    rw [kvPullList, he2]
    dsimp only
    rw [hk]
    dsimp only
    congr 1
    apply List.map_congr_left
    intro o ho
    rw [houts o ho]
  · intro hk
    constructor
    · intro houts
      rw [kvRowSparsePull, he2]
      dsimp only
      rw [hk]
      dsimp only
      have hall : (outs.map (fun o => (o, List.range e.shape.numRows))).all
          (fun p => StorageKind.beq p.1.kind .rowSparse) = true := by
        apply List.all_eq_true.mpr
        intro p hp
        rw [List.mem_map] at hp
        obtain ⟨o, ho, rfl⟩ := hp
        exact List.all_eq_true.mp houts o ho
      rw [if_pos hall, List.map_map]
      rfl
    · intro hwf r c
      rw [read_retainRows]
      by_cases hr : r < e.shape.numRows
      · rw [if_pos (List.mem_range.mpr hr)]
      · rw [if_neg (fun hm => hr (List.mem_range.mp hm))]
        exact (read_zero_of_ge e.shape e.value hwf r c (by omega)).symm

/-- C10 witness: pulling key 5 row-sparsely with the complete id set into
two buffers returns the full stored value for each buffer. -/
theorem C10_broadcast_witness :
    entryAt kvRsp 5 = some ⟨shape44, .rowSparse, rspOnes44⟩ ∧
      ([rspEmpty44, rspTwos44].all (fun o => StorageKind.beq o.kind .rowSparse) = true) ∧
      kvRowSparsePull kvRsp 5
          ([rspEmpty44, rspTwos44].map (fun o => (o, List.range shape44.numRows))) =
        .ok ([rspEmpty44, rspTwos44].map
          (fun _ => retainRows shape44 rspOnes44 (List.range shape44.numRows))) :=
  ⟨by decide, by decide,
    ((C10_broadcast kvRsp 5 ⟨shape44, .rowSparse, rspOnes44⟩ [rspEmpty44, rspTwos44]
      (by decide)).2 rfl).1 (by decide)⟩

end KVS
